import Mathlib

/-!
Verification of the kailua proof-request pipeline against its specification.

The definitions below are shallow embeddings of the Rust sources:
  * `bin/cli/src/provider.rs`   : bit-reversed roots of unity, KZG opening wrapper
  * `bin/cli/src/fault.rs`      : faulty proposal construction, extra-data packing,
                                  duplication-counter search
  * `bin/cli/src/sync/deployment.rs` : deployment parameters and proposal timing
  * `crates/common/src/kona.rs` : oracle-backed L1 chain provider
  * `crates/validator/src/requests.rs` : fault proof request construction
  * `build/risczero/fpvm/src/main.rs`  : FPVM guest entry point

Machine integers (u64, u128, U256) are modelled as `Nat`; the operations involved
(addition, multiplication, truncating subtraction, division, shifts) are exact over
the value ranges the theorems quantify over, and `u128` bit reversal is modelled by
an explicit 128-bit reversal that discards higher bits exactly as the cast does.
32-byte hashes and addresses are modelled as abstract numeric identifiers.
-/

namespace Kailua

set_option maxRecDepth 100000

/-! ## Fast modular exponentiation

`ruint`'s `U256::pow_mod(self, exp, modulus)` computes `self ^ exp % modulus`.
We embed it as a binary exponentiation over `Nat`, with a structural fuel of one
bit per recursion step (256 suffices for any `U256` exponent), and prove it equal
to mathematical `b ^ e % m`. -/

def powModAux : Nat → Nat → Nat → Nat → Nat
  | 0, _, _, m => 1 % m
  | fuel + 1, b, e, m =>
    if e = 0 then 1 % m
    else
      let r := powModAux fuel (b * b % m) (e / 2) m
      if e % 2 = 1 then r * b % m else r

def powMod (b e m : Nat) : Nat := powModAux 256 b e m

theorem powModAux_correct (fuel : Nat) :
    ∀ b e m : Nat, e < 2 ^ fuel → powModAux fuel b e m = b ^ e % m := by
  induction fuel with
  | zero =>
    intro b e m he
    have he0 : e = 0 := Nat.lt_one_iff.mp (by simpa using he)
    subst he0
    simp [powModAux]
  | succ n ih =>
    intro b e m he
    by_cases he0 : e = 0
    · subst he0
      simp [powModAux]
    · have hdiv : e / 2 < 2 ^ n := by
        have h2 : e < 2 ^ n * 2 := by
          calc e < 2 ^ (n + 1) := he
          _ = 2 ^ n * 2 := by rw [pow_succ]
        exact Nat.div_lt_of_lt_mul (by omega)
      have hr := ih (b * b % m) (e / 2) m hdiv
      have hbb : (b * b % m) ^ (e / 2) % m = (b * b) ^ (e / 2) % m :=
        (Nat.pow_mod (b * b) (e / 2) m).symm
      have hsplit : (b * b) ^ (e / 2) * b ^ (e % 2) = b ^ e := by
        rw [show b * b = b ^ 2 by ring, ← pow_mul, ← pow_add]
        congr 1
        omega
      simp only [powModAux, if_neg he0]
      rw [hr, hbb]
      by_cases hpar : e % 2 = 1
      · rw [hpar, pow_one] at hsplit
        simp only [if_pos hpar]
        rw [Nat.mod_mul_mod, hsplit]
      · have hz : e % 2 = 0 := by omega
        rw [hz, pow_zero, mul_one] at hsplit
        simp only [if_neg hpar]
        rw [hsplit]

theorem powMod_correct (b e m : Nat) (he : e < 2 ^ 256) : powMod b e m = b ^ e % m :=
  powModAux_correct 256 b e m he

/-! ## Bit reversal

`u128::reverse_bits` reverses the 128 binary digits of its argument.  We model it
by an accumulator recursion over the low `n` bits; `revBits 128` agrees with the
Rust primitive on every `u128` value and discards bits above position 127 exactly
like the truncating cast does. -/

def revBitsAux : Nat → Nat → Nat → Nat
  | 0, _, acc => acc
  | n + 1, x, acc => revBitsAux n (x / 2) (2 * acc + x % 2)

def revBits (n x : Nat) : Nat := revBitsAux n x 0

theorem revBitsAux_acc (n : Nat) :
    ∀ x acc : Nat, revBitsAux n x acc = acc * 2 ^ n + revBits n x := by
  induction n with
  | zero => intro x acc; simp [revBitsAux, revBits]
  | succ n ih =>
    intro x acc
    have h1 : revBitsAux (n + 1) x acc = revBitsAux n (x / 2) (2 * acc + x % 2) := rfl
    have h2 : revBits (n + 1) x = revBitsAux n (x / 2) (2 * 0 + x % 2) := rfl
    rw [h1, ih (x / 2) (2 * acc + x % 2), h2, ih (x / 2) (2 * 0 + x % 2)]
    ring

theorem revBits_succ (n x : Nat) :
    revBits (n + 1) x = x % 2 * 2 ^ n + revBits n (x / 2) := by
  show revBitsAux n (x / 2) (2 * 0 + x % 2) = x % 2 * 2 ^ n + revBits n (x / 2)
  rw [revBitsAux_acc]
  ring_nf

theorem revBits_lt (n : Nat) : ∀ x : Nat, revBits n x < 2 ^ n := by
  induction n with
  | zero => intro x; simp [revBits, revBitsAux]
  | succ n ih =>
    intro x
    rw [revBits_succ]
    have h1 : x % 2 ≤ 1 := by omega
    have h2 : revBits n (x / 2) < 2 ^ n := ih (x / 2)
    calc x % 2 * 2 ^ n + revBits n (x / 2) < x % 2 * 2 ^ n + 2 ^ n := by omega
    _ ≤ 1 * 2 ^ n + 2 ^ n := by
        have := Nat.mul_le_mul_right (2 ^ n) h1
        omega
    _ = 2 ^ (n + 1) := by rw [pow_succ]; ring

theorem revBits_top (n : Nat) :
    ∀ x : Nat, revBits (n + 1) x = 2 * revBits n (x % 2 ^ n) + x / 2 ^ n % 2 := by
  induction n with
  | zero => intro x; simp [revBits_succ, revBits, revBitsAux]
  | succ n ih =>
    intro x
    rw [revBits_succ, ih (x / 2)]
    conv_rhs => rw [revBits_succ]
    have e1 : x % 2 ^ (n + 1) % 2 = x % 2 := by
      apply Nat.mod_mod_of_dvd
      exact dvd_pow_self 2 (Nat.succ_ne_zero n)
    have e2 : x % 2 ^ (n + 1) / 2 = x / 2 % 2 ^ n := by
      rw [pow_succ, mul_comm, Nat.mod_mul_right_div_self]
    have e3 : x / 2 / 2 ^ n = x / 2 ^ (n + 1) := by
      rw [Nat.div_div_eq_div_mul, pow_succ, mul_comm]
    rw [e1, e2, e3]
    ring

theorem revBits_involution (n : Nat) :
    ∀ x : Nat, x < 2 ^ n → revBits n (revBits n x) = x := by
  induction n with
  | zero =>
    intro x hx
    have : x = 0 := by simpa using hx
    simp [this, revBits, revBitsAux]
  | succ n ih =>
    intro x hx
    have hr : revBits (n + 1) x = x % 2 * 2 ^ n + revBits n (x / 2) := revBits_succ n x
    rw [revBits_top, hr]
    have hlt : revBits n (x / 2) < 2 ^ n := revBits_lt n (x / 2)
    have hpow : (0 : Nat) < 2 ^ n := by positivity
    have e1 : (x % 2 * 2 ^ n + revBits n (x / 2)) % 2 ^ n = revBits n (x / 2) := by
      rw [mul_comm (x % 2) (2 ^ n), Nat.mul_add_mod, Nat.mod_eq_of_lt hlt]
    have e2 : (x % 2 * 2 ^ n + revBits n (x / 2)) / 2 ^ n = x % 2 := by
      rw [mul_comm (x % 2) (2 ^ n), Nat.mul_add_div hpow, Nat.div_eq_of_lt hlt]
      omega
    rw [e1, e2]
    have hx2 : x / 2 < 2 ^ n := by
      have h2 : x < 2 ^ n * 2 := by rw [← pow_succ]; exact hx
      exact Nat.div_lt_of_lt_mul (by omega)
    rw [ih (x / 2) hx2]
    omega

theorem revBits_widen (k : Nat) :
    ∀ m x : Nat, k ≤ m → x < 2 ^ k → revBits m x = revBits k x * 2 ^ (m - k) := by
  intro m
  induction m with
  | zero =>
    intro x hk _
    have : k = 0 := by omega
    subst this
    simp
  | succ m ih =>
    intro x hk hx
    by_cases hkm : k = m + 1
    · subst hkm; simp
    · have hk' : k ≤ m := by omega
      have hxm : x < 2 ^ m := lt_of_lt_of_le hx (Nat.pow_le_pow_right (by omega) hk')
      rw [revBits_top, Nat.mod_eq_of_lt hxm, Nat.div_eq_of_lt hxm]
      rw [ih x hk' hx]
      have : m + 1 - k = m - k + 1 := by omega
      rw [this, pow_succ]
      ring

/-! ## Blob field-element layer (`bin/cli/src/provider.rs`)

`reverse_bits(index, order_po2)` reverses the bits of a `u128` index and shifts
right by `128 - order_po2`; `root_of_unity(index)` evaluates the blob opening
point; `blob_fe_proof(blob, index)` builds and self-verifies a KZG opening. -/

def reverse_bits (index : Nat) (order_po2 : Nat) : Nat :=
  revBits 128 index >>> (128 - order_po2)

def BLS_MODULUS : Nat :=
  52435875175126190479447740508185965837690552500527637822603658699938581184513

def PRIMITIVE_ROOT_OF_UNITY : Nat := 7

def FE_ORDER_PO2 : Nat := 12

def FIELD_ELEMENTS_PER_BLOB : Nat := 4096

def root_of_unity (index : Nat) : Nat :=
  let primitive_root_exponent := (BLS_MODULUS - 1) / FIELD_ELEMENTS_PER_BLOB
  let root := powMod PRIMITIVE_ROOT_OF_UNITY primitive_root_exponent BLS_MODULUS
  let root_exponent := reverse_bits index FE_ORDER_PO2
  powMod root root_exponent BLS_MODULUS

theorem reverse_bits_eq_revBits (index k : Nat) (hk : k ≤ 128) (hi : index < 2 ^ k) :
    reverse_bits index k = revBits k index := by
  show revBits 128 index >>> (128 - k) = revBits k index
  rw [revBits_widen k 128 index hk hi, Nat.shiftRight_eq_div_pow,
    Nat.mul_div_cancel _ (by positivity)]

theorem reverse_bits_le_revBits (index k : Nat) :
    reverse_bits index k ≤ revBits 128 index := by
  rw [reverse_bits, Nat.shiftRight_eq_div_pow]
  exact Nat.div_le_self _ _

theorem reverse_bits_lt_2_256 (index k : Nat) : reverse_bits index k < 2 ^ 256 :=
  lt_of_le_of_lt (reverse_bits_le_revBits index k)
    (lt_of_lt_of_le (revBits_lt 128 index) (by norm_num))

/-- C3: `root_of_unity(index)` equals `ω ^ bitrev(index, 12) mod p` where
`ω = 7 ^ ((p - 1) / 4096) mod p` and `p` is the BLS12-381 scalar modulus; the
computed `ω` equals 39033254847818212395286706435128746857159659164139250548781411570340225835782. -/
theorem C3_root_of_unity_spec :
    (∀ index : Nat,
      root_of_unity index =
        (PRIMITIVE_ROOT_OF_UNITY ^ ((BLS_MODULUS - 1) / FIELD_ELEMENTS_PER_BLOB) % BLS_MODULUS) ^
            reverse_bits index FE_ORDER_PO2 % BLS_MODULUS)
    ∧ PRIMITIVE_ROOT_OF_UNITY ^ ((BLS_MODULUS - 1) / FIELD_ELEMENTS_PER_BLOB) % BLS_MODULUS =
        39033254847818212395286706435128746857159659164139250548781411570340225835782 := by
  have hexp : (BLS_MODULUS - 1) / FIELD_ELEMENTS_PER_BLOB < 2 ^ 256 := by
    have h1 : BLS_MODULUS - 1 < 2 ^ 256 := by decide
    exact lt_of_le_of_lt (Nat.div_le_self _ _) h1
  constructor
  · intro index
    show powMod
        (powMod PRIMITIVE_ROOT_OF_UNITY ((BLS_MODULUS - 1) / FIELD_ELEMENTS_PER_BLOB) BLS_MODULUS)
        (reverse_bits index FE_ORDER_PO2) BLS_MODULUS = _
    rw [powMod_correct _ _ _ (reverse_bits_lt_2_256 index FE_ORDER_PO2),
      powMod_correct _ _ _ hexp]
  · rw [← powMod_correct _ _ _ hexp]
    decide

/-- C4 counterexample: the bit-reversal involution fails as universally stated,
because `reverse_bits` discards the bits of the index above position `order_po2`:
at index 4096 with order 12 the double application returns 0, not 4096. -/
theorem C4_involution_cex :
    ¬ (reverse_bits (reverse_bits 4096 12) 12 = 4096) := by decide

/-- C4 (amended): for every order `k ≤ 128` and every index `i < 2 ^ k`,
`reverse_bits(reverse_bits(i, k), k) = i`; moreover `reverse_bits(1, 12) = 2048`,
`reverse_bits(3, 12) = 3072`, and `reverse_bits(4095, 12) = 4095`. -/
theorem C4_involution_amended :
    (∀ k i : Nat, k ≤ 128 → i < 2 ^ k → reverse_bits (reverse_bits i k) k = i)
    ∧ reverse_bits 1 12 = 2048 ∧ reverse_bits 3 12 = 3072 ∧ reverse_bits 4095 12 = 4095 := by
  refine ⟨?_, by decide, by decide, by decide⟩
  intro k i hk hi
  rw [reverse_bits_eq_revBits i k hk hi,
    reverse_bits_eq_revBits (revBits k i) k hk (revBits_lt k i),
    revBits_involution k i hi]

theorem C4_witness :
    12 ≤ 128 ∧ 5 < 2 ^ 12 ∧ reverse_bits (reverse_bits 5 12) 12 = 5 :=
  ⟨by decide, by decide, C4_involution_amended.1 12 5 (by decide) (by decide)⟩

/-! ## Faulty proposal builder (`bin/cli/src/fault.rs`)

The builder computes the faulty block number from the parent block number, the
fault offset and the output block span, then normalizes it:

  let faulty_block_number = parent_block_number + args.fault_offset * output_block_span;
  ...
  let is_output_fault = faulty_block_number <= proposal_block_count;
  let normalized_fault_block_number =
      faulty_block_number - (!is_output_fault as u64) * output_block_span;

where `proposal_block_count = proposal_output_count * output_block_span`.  Note
that the code compares the absolute `faulty_block_number` against the relative
`proposal_block_count`. -/

def proposal_block_count (proposal_output_count output_block_span : Nat) : Nat :=
  proposal_output_count * output_block_span

def faulty_block_number (parent_block_number fault_offset output_block_span : Nat) : Nat :=
  parent_block_number + fault_offset * output_block_span

def is_output_fault (parent_block_number fault_offset output_block_span
    proposal_output_count : Nat) : Bool :=
  faulty_block_number parent_block_number fault_offset output_block_span
    ≤ proposal_block_count proposal_output_count output_block_span

def normalized_fault_block_number (parent_block_number fault_offset output_block_span
    proposal_output_count : Nat) : Nat :=
  faulty_block_number parent_block_number fault_offset output_block_span -
    (if is_output_fault parent_block_number fault_offset output_block_span
        proposal_output_count then 0 else 1) * output_block_span

/-- C1: evaluation of the fault normalization at a failing input and at the S4
scenario.  With parent_block_number = 1000, output_block_span = 4,
proposal_output_count = 1024 and fault_offset = 1000 the fault offset is below
the proposal output count, so per the specification the fault is an output fault
and the faulty block number 5000 must be left unchanged; the code instead
compares 5000 against 4096, classifies the fault as terminal, and shifts the
block number back to 4996.  The S4 instance (fault_offset = 1024, result 5092)
does hold. -/
theorem C1_fault_normalization_eval :
    1000 < 1024
    ∧ faulty_block_number 1000 1000 4 = 5000
    ∧ normalized_fault_block_number 1000 1000 4 1024 = 4996
    ∧ is_output_fault 1000 1000 4 1024 = false
    ∧ normalized_fault_block_number 1000 1024 4 1024 = 5092 := by
  refine ⟨by decide, by decide, by decide, by decide, by decide⟩

/-! ## Extra-data packing (`bin/cli/src/fault.rs`)

The submitted extra data is the concatenation of the `abi_encode_packed` encodings
of three u64 values: the proposed block number, the parent factory index and the
duplication counter.  `abi_encode_packed` of a u64 is its 8-byte big-endian
encoding. -/

def beBytesAux : Nat → Nat → List Nat
  | 0, _ => []
  | n + 1, x => beBytesAux n (x / 256) ++ [x % 256]

def abi_encode_packed_u64 (x : Nat) : List Nat := beBytesAux 8 x

def extra_data (proposed_block_number parent_index dupe_counter : Nat) : List Nat :=
  abi_encode_packed_u64 proposed_block_number ++ abi_encode_packed_u64 parent_index ++
    abi_encode_packed_u64 dupe_counter

/-- Interpretation of a byte list as a big-endian natural number, used to state
the packing layout value-wise. -/
def fromBEBytes (l : List Nat) : Nat := l.foldl (fun acc b => acc * 256 + b) 0

theorem beBytesAux_length (n : Nat) : ∀ x : Nat, (beBytesAux n x).length = n := by
  induction n with
  | zero => intro x; rfl
  | succ n ih =>
    intro x
    show (beBytesAux n (x / 256) ++ [x % 256]).length = n + 1
    rw [List.length_append, ih (x / 256)]
    rfl

theorem beBytesAux_foldl (n : Nat) :
    ∀ x a : Nat, x < 256 ^ n →
      (beBytesAux n x).foldl (fun acc b => acc * 256 + b) a = a * 256 ^ n + x := by
  induction n with
  | zero =>
    intro x a hx
    have : x = 0 := by simpa using hx
    simp [this, beBytesAux]
  | succ n ih =>
    intro x a hx
    have hdiv : x / 256 < 256 ^ n := by
      have h2 : x < 256 ^ n * 256 := by rw [← pow_succ]; exact hx
      exact Nat.div_lt_of_lt_mul (by omega)
    show (beBytesAux n (x / 256) ++ [x % 256]).foldl (fun acc b => acc * 256 + b) a
      = a * 256 ^ (n + 1) + x
    rw [List.foldl_append, ih (x / 256) a hdiv]
    show (a * 256 ^ n + x / 256) * 256 + x % 256 = a * 256 ^ (n + 1) + x
    have hmul : (256 : Nat) ^ (n + 1) = 256 ^ n * 256 := pow_succ 256 n
    have hdm : x / 256 * 256 + x % 256 = x := by omega
    calc (a * 256 ^ n + x / 256) * 256 + x % 256
        = a * (256 ^ n * 256) + (x / 256 * 256 + x % 256) := by ring
    _ = a * 256 ^ (n + 1) + x := by rw [hmul, hdm]

/-- C6: the extra-data bytes are the packed big-endian concatenation of
`proposed_block_number (u64) || parent_index (u64) || duplication_counter (u64)`,
24 bytes in total whose big-endian value is
`(n * 2 ^ 64 + p) * 2 ^ 64 + d`; in particular the packing of
(0x100, 0x02, 0x00) is the stated 24-byte sequence. -/
theorem C6_extra_data_layout :
    (∀ n p d : Nat, n < 2 ^ 64 → p < 2 ^ 64 → d < 2 ^ 64 →
      (extra_data n p d).length = 24
      ∧ fromBEBytes (extra_data n p d) = (n * 2 ^ 64 + p) * 2 ^ 64 + d)
    ∧ extra_data 0x100 0x02 0x00 =
        [0, 0, 0, 0, 0, 0, 1, 0, 0, 0, 0, 0, 0, 0, 0, 2, 0, 0, 0, 0, 0, 0, 0, 0] := by
  have h256 : (256 : Nat) ^ 8 = 2 ^ 64 := by norm_num
  constructor
  · intro n p d hn hp hd
    rw [← h256] at hn hp hd
    constructor
    · show (abi_encode_packed_u64 n ++ abi_encode_packed_u64 p ++
        abi_encode_packed_u64 d).length = 24
      rw [List.length_append, List.length_append]
      show (beBytesAux 8 n).length + (beBytesAux 8 p).length + (beBytesAux 8 d).length = 24
      rw [beBytesAux_length, beBytesAux_length, beBytesAux_length]
    · show (abi_encode_packed_u64 n ++ abi_encode_packed_u64 p ++
        abi_encode_packed_u64 d).foldl (fun acc b => acc * 256 + b) 0
        = (n * 2 ^ 64 + p) * 2 ^ 64 + d
      simp only [abi_encode_packed_u64]
      rw [List.foldl_append, List.foldl_append, beBytesAux_foldl 8 n 0 hn,
        beBytesAux_foldl 8 p _ hp, beBytesAux_foldl 8 d _ hd, h256]
      ring
  · decide

/-! ## Duplication-counter search (`bin/cli/src/fault.rs`)

The builder starts at duplication counter 0 and loops, computing the extra data
for the current counter and querying `factory.games(game_type, claimed_root,
extra_data)`; it breaks with the current extra data as soon as the factory
returns the zero address, and increments the counter otherwise.  The factory
query is abstracted by a predicate `games` on the extra-data bytes (game type
and claimed root are fixed throughout the loop) which is true exactly when the
returned address is nonzero.  The unbounded Rust loop is modelled with a fuel
bound; the surrounding claim supplies a counter at which the factory is known
to return the zero address, which bounds the number of iterations. -/

def dupe_loop (games : List Nat → Bool) (proposed_block_number parent_index : Nat) :
    Nat → Nat → Option (Nat × List Nat)
  | 0, _ => none
  | fuel + 1, dupe_counter =>
    let ed := extra_data proposed_block_number parent_index dupe_counter
    if games ed then dupe_loop games proposed_block_number parent_index fuel (dupe_counter + 1)
    else some (dupe_counter, ed)

def find_extra_data (games : List Nat → Bool) (proposed_block_number parent_index fuel : Nat) :
    Option (Nat × List Nat) :=
  dupe_loop games proposed_block_number parent_index fuel 0

theorem dupe_loop_spec (games : List Nat → Bool) (n p : Nat) :
    ∀ fuel s : Nat,
      (∃ j : Nat, j < fuel ∧ games (extra_data n p (s + j)) = false) →
      ∃ d : Nat, s ≤ d
        ∧ dupe_loop games n p fuel s = some (d, extra_data n p d)
        ∧ games (extra_data n p d) = false
        ∧ ∀ e : Nat, s ≤ e → e < d → games (extra_data n p e) = true := by
  intro fuel
  induction fuel with
  | zero =>
    intro s hj
    obtain ⟨j, hjf, _⟩ := hj
    omega
  | succ fuel ih =>
    intro s hj
    by_cases hg : games (extra_data n p s) = true
    · obtain ⟨j, hjf, hjz⟩ := hj
      have hj0 : j ≠ 0 := by
        intro h0
        rw [h0, Nat.add_zero] at hjz
        rw [hg] at hjz
        exact Bool.noConfusion hjz
      obtain ⟨d, hsd, hloop, hdz, hleast⟩ := ih (s + 1)
        ⟨j - 1, by omega, by rw [show s + 1 + (j - 1) = s + j by omega]; exact hjz⟩
      refine ⟨d, by omega, ?_, hdz, ?_⟩
      · show (if games (extra_data n p s) then dupe_loop games n p fuel (s + 1)
          else some (s, extra_data n p s)) = some (d, extra_data n p d)
        rw [if_pos hg]
        exact hloop
      · intro e hse hed
        by_cases hes : e = s
        · rw [hes]; exact hg
        · exact hleast e (by omega) hed
    · have hg' : games (extra_data n p s) = false := by
        revert hg
        cases games (extra_data n p s) <;> simp
      refine ⟨s, le_refl s, ?_, hg', fun e hse hed => absurd (lt_of_le_of_lt hse hed)
        (lt_irrefl s)⟩
      show (if games (extra_data n p s) then dupe_loop games n p fuel (s + 1)
        else some (s, extra_data n p s)) = some (s, extra_data n p s)
      rw [if_neg (by rw [hg'] ; exact Bool.false_ne_true)]

/-- C7: the duplication-counter search starts at counter 0 and returns the
extra data built from the smallest counter for which the factory reports the
zero address; in particular, whenever the factory reports occupied slots for
counters 0 and 1 and a free slot for counter 2, the search submits counter 2. -/
theorem C7_dupe_counter_search :
    (∀ (games : List Nat → Bool) (n p d₀ fuel : Nat),
      games (extra_data n p d₀) = false → d₀ < fuel →
      ∃ d : Nat, find_extra_data games n p fuel = some (d, extra_data n p d)
        ∧ games (extra_data n p d) = false
        ∧ ∀ e : Nat, e < d → games (extra_data n p e) = true)
    ∧ (∀ (games : List Nat → Bool) (n p fuel : Nat),
      games (extra_data n p 0) = true → games (extra_data n p 1) = true →
      games (extra_data n p 2) = false → 2 < fuel →
      find_extra_data games n p fuel = some (2, extra_data n p 2)) := by
  have main : ∀ (games : List Nat → Bool) (n p d₀ fuel : Nat),
      games (extra_data n p d₀) = false → d₀ < fuel →
      ∃ d : Nat, find_extra_data games n p fuel = some (d, extra_data n p d)
        ∧ games (extra_data n p d) = false
        ∧ ∀ e : Nat, e < d → games (extra_data n p e) = true := by
    intro games n p d₀ fuel h0 hfuel
    obtain ⟨d, _, hloop, hdz, hleast⟩ :=
      dupe_loop_spec games n p fuel 0 ⟨d₀, hfuel, by rw [Nat.zero_add]; exact h0⟩
    exact ⟨d, hloop, hdz, fun e he => hleast e (Nat.zero_le e) he⟩
  refine ⟨main, ?_⟩
  intro games n p fuel h0 h1 h2 hfuel
  obtain ⟨d, hfind, hdz, hleast⟩ := main games n p 2 fuel h2 hfuel
  have hd2 : d = 2 := by
    by_contra hne
    rcases Nat.lt_or_ge d 2 with hlt | hge
    · interval_cases d
      · rw [h0] at hdz; exact Bool.noConfusion hdz
      · rw [h1] at hdz; exact Bool.noConfusion hdz
    · have : 2 < d := by omega
      have := hleast 2 this
      rw [h2] at this
      exact Bool.false_ne_true this
  rw [hd2] at hfind
  exact hfind

theorem C7_witness :
    (fun l => decide (l = extra_data 5 7 0 ∨ l = extra_data 5 7 1)) (extra_data 5 7 0) = true
    ∧ (fun l => decide (l = extra_data 5 7 0 ∨ l = extra_data 5 7 1)) (extra_data 5 7 1) = true
    ∧ (fun l => decide (l = extra_data 5 7 0 ∨ l = extra_data 5 7 1)) (extra_data 5 7 2) = false
    ∧ 2 < 4
    ∧ find_extra_data (fun l => decide (l = extra_data 5 7 0 ∨ l = extra_data 5 7 1)) 5 7 4 =
        some (2, extra_data 5 7 2) :=
  ⟨by decide, by decide, by decide, by decide,
    C7_dupe_counter_search.2 (fun l => decide (l = extra_data 5 7 0 ∨ l = extra_data 5 7 1))
      5 7 4 (by decide) (by decide) (by decide) (by decide)⟩

/-! ## Deployment parameters (`bin/cli/src/sync/deployment.rs`)

Only the numeric parameters consulted by the timing and sizing functions are
modelled; the contract addresses and image id play no role in those functions. -/

structure SyncDeployment where
  proposal_output_count : Nat
  output_block_span : Nat
  genesis_time : Nat
  block_time : Nat
  proposal_gap : Nat

def SyncDeployment.min_proposal_time (d : SyncDeployment) (proposal_block_number : Nat) : Nat :=
  d.genesis_time + proposal_block_number * d.block_time + d.proposal_gap + 1

def SyncDeployment.time_to_propose (d : SyncDeployment)
    (proposal_block_number proposal_time : Nat) : Nat :=
  d.min_proposal_time proposal_block_number - proposal_time

def SyncDeployment.allows_proposal (d : SyncDeployment)
    (proposal_block_number proposal_time : Nat) : Bool :=
  d.time_to_propose proposal_block_number proposal_time = 0

def SyncDeployment.blocks_per_proposal (d : SyncDeployment) : Nat :=
  d.proposal_output_count * d.output_block_span

/-- C9: for every deployment, `blocks_per_proposal` equals
`proposal_output_count * output_block_span`, and `allows_proposal(H, t)` holds
if and only if the L1 time `t` is at least
`genesis_time + H * block_time + proposal_gap + 1`. -/
theorem C9_deployment_invariants :
    ∀ (d : SyncDeployment) (H t : Nat),
      d.blocks_per_proposal = d.proposal_output_count * d.output_block_span
      ∧ (d.allows_proposal H t = true ↔
          d.genesis_time + H * d.block_time + d.proposal_gap + 1 ≤ t) := by
  intro d H t
  refine ⟨rfl, ?_⟩
  show decide (d.min_proposal_time H - t = 0) = true ↔ _
  rw [decide_eq_true_iff]
  show d.genesis_time + H * d.block_time + d.proposal_gap + 1 - t = 0 ↔ _
  omega

/-! ## Oracle-backed L1 chain provider (`crates/common/src/kona.rs`)

`OracleL1ChainProvider` holds a vector of sealed headers (head first) and a map
from block hash to vector index.  `header_by_hash` serves a cached header or
fetches the preimage from the oracle; `block_info_by_number` fails with
`BlockNumberPastHead` when the requested number exceeds the head number, and
otherwise walks parent hashes backward, appending each fetched header, until
the requested depth is cached.

Block hashes are abstract numeric identifiers; the keccak-keyed preimage oracle
is a partial map from hash to decoded header (a `none` models a missing
preimage or an RLP decoding failure).  The hash map is modelled as an
association list to which insertion prepends; this matches the `HashMap`
length bookkeeping whenever the traversed hashes are distinct, which the
theorem's injectivity hypothesis guarantees.  The `while headers_map.len() <=
header_index` loop appends exactly one header per iteration, so it runs
exactly `header_index + 1 - headers_map.len()` times; the walk is modelled by
that iteration count. -/

structure Header where
  parent_hash : Nat
  number : Nat
  timestamp : Nat

structure SealedHeader where
  hash : Nat
  header : Header

structure BlockInfo where
  hash : Nat
  number : Nat
  parent_hash : Nat
  timestamp : Nat

structure L1ProviderState where
  headers : List SealedHeader
  headers_map : List (Nat × Nat)

inductive OracleErr where
  | blockNumberPastHead (block_number head_number : Nat)
  | missingPreimage (block_hash : Nat)
  | indexOutOfBounds

def provider_new (oracle : Nat → Option Header) (l1_head : Nat) :
    Except OracleErr L1ProviderState :=
  if l1_head = 0 then .ok ⟨[], []⟩
  else
    match oracle l1_head with
    | some hdr => .ok ⟨[⟨l1_head, hdr⟩], [(l1_head, 0)]⟩
    | none => .error (.missingPreimage l1_head)

def header_by_hash (oracle : Nat → Option Header) (st : L1ProviderState) (h : Nat) :
    Except OracleErr Header :=
  match st.headers_map.find? (fun kv => kv.1 == h) with
  | some kv =>
    match st.headers.get? kv.2 with
    | some sh => .ok sh.header
    | none => .error .indexOutOfBounds
  | none =>
    match oracle h with
    | some hdr => .ok hdr
    | none => .error (.missingPreimage h)

def walk_step (oracle : Nat → Option Header) (st : L1ProviderState) :
    Except OracleErr L1ProviderState :=
  match st.headers.get? (st.headers_map.length - 1) with
  | none => .error .indexOutOfBounds
  | some last =>
    match header_by_hash oracle st last.header.parent_hash with
    | .error e => .error e
    | .ok hdr =>
      .ok ⟨st.headers ++ [⟨last.header.parent_hash, hdr⟩],
        (last.header.parent_hash, st.headers.length) :: st.headers_map⟩

def walk_back (oracle : Nat → Option Header) (st : L1ProviderState) :
    Nat → Except OracleErr L1ProviderState
  | 0 => .ok st
  | k + 1 =>
    match walk_back oracle st k with
    | .error e => .error e
    | .ok st2 => walk_step oracle st2

def block_info_by_number (oracle : Nat → Option Header) (st : L1ProviderState)
    (block_number : Nat) : Except OracleErr BlockInfo :=
  match st.headers.get? 0 with
  | none => .error .indexOutOfBounds
  | some head =>
    if block_number > head.header.number then
      .error (.blockNumberPastHead block_number head.header.number)
    else
      let header_index := head.header.number - block_number
      match walk_back oracle st (header_index + 1 - st.headers_map.length) with
      | .error e => .error e
      | .ok st2 =>
        match st2.headers.get? header_index with
        | none => .error .indexOutOfBounds
        | some h => .ok ⟨h.hash, h.header.number, h.header.parent_hash, h.header.timestamp⟩

theorem range_map_get {α : Type} (f : Nat → α) (n i : Nat) (h : i < n) :
    ((List.range n).map f).get? i = some (f i) := by
  rw [List.get?_map, List.get?_range h]
  rfl

theorem walk_step_eq (oracle : Nat → Option Header) (headers : List SealedHeader)
    (mp : List (Nat × Nat)) (last : SealedHeader) (ph : Nat) (hdr : Header)
    (hget : headers.get? (mp.length - 1) = some last)
    (hph : last.header.parent_hash = ph)
    (hfind : mp.find? (fun kv => kv.1 == ph) = none)
    (horc : oracle ph = some hdr) :
    walk_step oracle ⟨headers, mp⟩ =
      .ok ⟨headers ++ [⟨ph, hdr⟩], (ph, headers.length) :: mp⟩ := by
  simp only [walk_step, header_by_hash, hget, hph, hfind, horc]

theorem walk_back_chain (oracle : Nat → Option Header) (chain : Nat → Header)
    (hashOf : Nat → Nat) (H : Nat)
    (hpar : ∀ b, (chain (b + 1)).parent_hash = hashOf b)
    (horacle : ∀ b, oracle (hashOf b) = some (chain b))
    (hinj : ∀ a b, hashOf a = hashOf b → a = b) :
    ∀ k, k ≤ H →
      ∃ mp : List (Nat × Nat),
        walk_back oracle ⟨[⟨hashOf H, chain H⟩], [(hashOf H, 0)]⟩ k =
          .ok ⟨(List.range (k + 1)).map (fun d => ⟨hashOf (H - d), chain (H - d)⟩), mp⟩
        ∧ mp.length = k + 1
        ∧ ∀ kv ∈ mp, ∃ d, d ≤ k ∧ kv.1 = hashOf (H - d) := by
  intro k
  induction k with
  | zero =>
    intro _
    refine ⟨[(hashOf H, 0)], rfl, rfl, ?_⟩
    intro kv hkv
    rw [List.mem_singleton] at hkv
    subst hkv
    exact ⟨0, Nat.le_refl 0, rfl⟩
  | succ k ih =>
    intro hk1
    have hk : k ≤ H := by omega
    obtain ⟨mp, hwb, hlen, hmem⟩ := ih hk
    have hg : ((List.range (k + 1)).map
        (fun d => (⟨hashOf (H - d), chain (H - d)⟩ : SealedHeader))).get? (mp.length - 1)
        = some ⟨hashOf (H - k), chain (H - k)⟩ := by
      rw [hlen]
      exact range_map_get _ (k + 1) k (by omega)
    have hH : H - k = (H - (k + 1)) + 1 := by omega
    have hph : (chain (H - k)).parent_hash = hashOf (H - (k + 1)) := by
      rw [hH, hpar]
    have hfind : mp.find? (fun kv => kv.1 == hashOf (H - (k + 1))) = none := by
      rw [List.find?_eq_none]
      intro kv hkv
      obtain ⟨d, hd, hkey⟩ := hmem kv hkv
      show ¬(kv.1 == hashOf (H - (k + 1))) = true
      rw [hkey, beq_iff_eq]
      intro heq
      have hde : H - d = H - (k + 1) := hinj _ _ heq
      omega
    have hstep := walk_step_eq oracle
      ((List.range (k + 1)).map (fun d => ⟨hashOf (H - d), chain (H - d)⟩)) mp
      ⟨hashOf (H - k), chain (H - k)⟩ (hashOf (H - (k + 1))) (chain (H - (k + 1)))
      hg hph hfind (horacle (H - (k + 1)))
    have hlenh : ((List.range (k + 1)).map
        (fun d => (⟨hashOf (H - d), chain (H - d)⟩ : SealedHeader))).length = k + 1 := by
      simp
    have hsucc : (List.range (k + 1 + 1)).map
        (fun d => (⟨hashOf (H - d), chain (H - d)⟩ : SealedHeader)) =
        (List.range (k + 1)).map (fun d => ⟨hashOf (H - d), chain (H - d)⟩) ++
          [⟨hashOf (H - (k + 1)), chain (H - (k + 1))⟩] := by
      rw [List.range_succ, List.map_append]
      rfl
    refine ⟨(hashOf (H - (k + 1)), k + 1) :: mp, ?_, by simp [hlen], ?_⟩
    · show (match walk_back oracle ⟨[⟨hashOf H, chain H⟩], [(hashOf H, 0)]⟩ k with
        | Except.error e => Except.error e
        | Except.ok st2 => walk_step oracle st2 : Except OracleErr L1ProviderState) = _
      rw [hwb]
      show walk_step oracle
        ⟨(List.range (k + 1)).map (fun d => ⟨hashOf (H - d), chain (H - d)⟩), mp⟩ = _
      rw [hstep, hsucc, hlenh]
    · intro kv hkv
      rw [List.mem_cons] at hkv
      cases hkv with
      | inl h => subst h; exact ⟨k + 1, Nat.le_refl _, rfl⟩
      | inr h =>
        obtain ⟨d, hd, hkey⟩ := hmem kv h
        exact ⟨d, by omega, hkey⟩

/-- C5: starting from a provider whose cached head is the sealed header of
block `H`, `block_info_by_number(n)` returns the `BlockNumberPastHead` error
exactly when `n` exceeds the head number `H`; otherwise it walks parent hashes
backward from the head, fetching each missing header from the oracle and
extending the cache, and returns a `BlockInfo` whose number field equals `n`
(and whose hash is the hash of block `n`).  The hypotheses say that the oracle
serves, under each block hash, the header of that block, that headers link to
their parents, and that block hashes are distinct. -/
theorem C5_block_info_by_number_spec (oracle : Nat → Option Header)
    (chain : Nat → Header) (hashOf : Nat → Nat) (H n : Nat)
    (hnum : ∀ b, (chain b).number = b)
    (hpar : ∀ b, (chain (b + 1)).parent_hash = hashOf b)
    (horacle : ∀ b, oracle (hashOf b) = some (chain b))
    (hinj : ∀ a b, hashOf a = hashOf b → a = b) :
    (n > H → block_info_by_number oracle ⟨[⟨hashOf H, chain H⟩], [(hashOf H, 0)]⟩ n =
      .error (.blockNumberPastHead n H))
    ∧ (n ≤ H → block_info_by_number oracle ⟨[⟨hashOf H, chain H⟩], [(hashOf H, 0)]⟩ n =
      .ok ⟨hashOf n, n, (chain n).parent_hash, (chain n).timestamp⟩) := by
  constructor
  · intro hn
    show (if n > (⟨hashOf H, chain H⟩ : SealedHeader).header.number then
        Except.error (OracleErr.blockNumberPastHead n
          (⟨hashOf H, chain H⟩ : SealedHeader).header.number)
      else _) = _
    rw [if_pos (show n > (⟨hashOf H, chain H⟩ : SealedHeader).header.number by
      show n > (chain H).number; rw [hnum]; exact hn)]
    show Except.error (OracleErr.blockNumberPastHead n (chain H).number) = _
    rw [hnum]
  · intro hn
    obtain ⟨mp, hwb, hlen, _⟩ :=
      walk_back_chain oracle chain hashOf H hpar horacle hinj (H - n) (by omega)
    have hfalse : ¬ (n > (chain H).number) := by rw [hnum]; omega
    show (if n > (⟨hashOf H, chain H⟩ : SealedHeader).header.number then _ else _) = _
    rw [if_neg hfalse]
    have hidx : (⟨hashOf H, chain H⟩ : SealedHeader).header.number - n = H - n := by
      show (chain H).number - n = H - n
      rw [hnum]
    show (match walk_back oracle ⟨[⟨hashOf H, chain H⟩], [(hashOf H, 0)]⟩
        ((chain H).number - n + 1 - 1) with
      | Except.error e => Except.error e
      | Except.ok st2 =>
        match st2.headers.get? ((chain H).number - n) with
        | none => Except.error OracleErr.indexOutOfBounds
        | some h => Except.ok ⟨h.hash, h.header.number, h.header.parent_hash,
            h.header.timestamp⟩ : Except OracleErr BlockInfo) = _
    rw [show (chain H).number - n + 1 - 1 = H - n by rw [hnum]; omega, hwb]

    show (match ((List.range (H - n + 1)).map
        (fun d => (⟨hashOf (H - d), chain (H - d)⟩ : SealedHeader))).get?
          ((chain H).number - n) with
      | none => Except.error OracleErr.indexOutOfBounds
      | some h => Except.ok ⟨h.hash, h.header.number, h.header.parent_hash,
          h.header.timestamp⟩ : Except OracleErr BlockInfo) = _
    rw [show (chain H).number - n = H - n by rw [hnum]]
    rw [range_map_get _ (H - n + 1) (H - n) (by omega)]
    show Except.ok (BlockInfo.mk (hashOf (H - (H - n))) (chain (H - (H - n))).number
      (chain (H - (H - n))).parent_hash (chain (H - (H - n))).timestamp) = _
    rw [show H - (H - n) = n by omega, hnum]

theorem C5_witness :
    (1 : Nat) ≤ 2
    ∧ block_info_by_number (fun h => some ⟨h - 1, h - 1, 0⟩)
        ⟨[⟨3, ⟨2, 2, 0⟩⟩], [(3, 0)]⟩ 1 = .ok ⟨2, 1, 1, 0⟩ :=
  ⟨by decide,
    (C5_block_info_by_number_spec (fun h => some ⟨h - 1, h - 1, 0⟩)
      (fun b => ⟨b, b, 0⟩) (fun b => b + 1) 2 1
      (fun _ => rfl) (fun _ => rfl) (fun _ => rfl)
      (fun a b h => Nat.succ_injective h)).2 (by decide)⟩

/-! ## Fault proof requests (`crates/validator/src/requests.rs`)

`request_fault_proof` reads the divergence point of the target proposal's fault
(`proposal.fault()` returns `None` when the proposal agrees with canon, in
which case the function bails), derives the agreed L2 head number from the
parent proposal's output block number, fetches the agreed head hash from the
L2 provider, reads the agreed and claimed output roots from the sync agent's
output cache, and sends a `Proposal` message with no precondition validation
data.  The proposal model (`kailua_sync::proposal::Proposal`) is outside the
embedded sources, so the divergence point computed by `fault()` enters as an
abstract optional input.  `PreconditionValidationData` is modelled from the
spec: a `Validity` record of the proposal L2 head number, the output count,
the block span and the indexed blob hashes. -/

inductive PreconditionValidationData where
  | Validity (proposal_l2_head_number proposal_output_count output_block_span : Nat)
      (blob_hashes : List (Nat × Nat))

structure Message where
  index : Nat
  precondition_validation_data : Option PreconditionValidationData
  l1_head : Nat
  agreed_l2_head_hash : Nat
  agreed_l2_output_root : Nat
  claimed_l2_block_number : Nat
  claimed_l2_output_root : Nat

inductive RequestErr where
  | noDivergence (proposal_index : Nat)
  | blockFetch (block_number : Nat)
  | outputNotCached (block_number : Nat)

def request_fault_proof (outputs : Nat → Option Nat) (deployment : SyncDeployment)
    (l2_block_hash : Nat → Option Nat) (proposal_index parent_output_block_number : Nat)
    (fault_divergence_point : Option Nat) (l1_head : Nat) : Except RequestErr Message :=
  match fault_divergence_point with
  | none => .error (.noDivergence proposal_index)
  | some divergence_point =>
    let agreed_l2_head_number :=
      parent_output_block_number + deployment.output_block_span * divergence_point
    match l2_block_hash agreed_l2_head_number with
    | none => .error (.blockFetch agreed_l2_head_number)
    | some agreed_l2_head_hash =>
      match outputs agreed_l2_head_number with
      | none => .error (.outputNotCached agreed_l2_head_number)
      | some agreed_l2_output_root =>
        let claimed_l2_block_number := agreed_l2_head_number + deployment.output_block_span
        match outputs claimed_l2_block_number with
        | none => .error (.outputNotCached claimed_l2_block_number)
        | some claimed_l2_output_root =>
          .ok ⟨proposal_index, none, l1_head, agreed_l2_head_hash, agreed_l2_output_root,
            claimed_l2_block_number, claimed_l2_output_root⟩

/-- C8: whenever `request_fault_proof` emits a message for a proposal with
divergence point `dp`, the message carries no precondition validation data,
its agreed L2 block number is `parent.output_block_number + output_block_span * dp`,
its claimed L2 block number is the agreed number plus exactly one
`output_block_span`, and its agreed and claimed output roots are the cached
canonical outputs at those two block numbers. -/
theorem C8_request_fault_proof_spec (outputs : Nat → Option Nat)
    (deployment : SyncDeployment) (l2_block_hash : Nat → Option Nat)
    (proposal_index parent_output_block_number dp l1_head : Nat) (msg : Message)
    (hok : request_fault_proof outputs deployment l2_block_hash proposal_index
      parent_output_block_number (some dp) l1_head = .ok msg) :
    msg.precondition_validation_data = none
    ∧ msg.index = proposal_index
    ∧ msg.l1_head = l1_head
    ∧ msg.claimed_l2_block_number =
        parent_output_block_number + deployment.output_block_span * dp +
          deployment.output_block_span
    ∧ l2_block_hash (parent_output_block_number + deployment.output_block_span * dp) =
        some msg.agreed_l2_head_hash
    ∧ outputs (parent_output_block_number + deployment.output_block_span * dp) =
        some msg.agreed_l2_output_root
    ∧ outputs msg.claimed_l2_block_number = some msg.claimed_l2_output_root := by
  revert hok
  show (match l2_block_hash (parent_output_block_number +
      deployment.output_block_span * dp) with
    | none => Except.error (RequestErr.blockFetch (parent_output_block_number +
        deployment.output_block_span * dp))
    | some agreed_l2_head_hash =>
      match outputs (parent_output_block_number + deployment.output_block_span * dp) with
      | none => Except.error (RequestErr.outputNotCached (parent_output_block_number +
          deployment.output_block_span * dp))
      | some agreed_l2_output_root =>
        match outputs (parent_output_block_number + deployment.output_block_span * dp +
            deployment.output_block_span) with
        | none => Except.error (RequestErr.outputNotCached (parent_output_block_number +
            deployment.output_block_span * dp + deployment.output_block_span))
        | some claimed_l2_output_root =>
          Except.ok ⟨proposal_index, none, l1_head, agreed_l2_head_hash,
            agreed_l2_output_root,
            parent_output_block_number + deployment.output_block_span * dp +
              deployment.output_block_span,
            claimed_l2_output_root⟩) = Except.ok msg → _
  cases hh : l2_block_hash (parent_output_block_number +
      deployment.output_block_span * dp) with
  | none => intro h; exact Except.noConfusion h
  | some agreed_hash =>
    cases ha : outputs (parent_output_block_number + deployment.output_block_span * dp) with
    | none => intro h; exact Except.noConfusion h
    | some agreed_root =>
      cases hc : outputs (parent_output_block_number + deployment.output_block_span * dp +
          deployment.output_block_span) with
      | none => intro h; exact Except.noConfusion h
      | some claimed_root =>
        intro h
        have hmsg := (Except.ok.injEq _ _).mp h
        subst hmsg
        exact ⟨rfl, rfl, rfl, rfl, rfl, rfl, hc⟩

theorem C8_witness :
    request_fault_proof (fun k => some (10 * k)) ⟨1, 2, 0, 0, 0⟩ (fun k => some (k + 1))
        9 100 (some 3) 77 = .ok ⟨9, none, 77, 107, 1060, 108, 1080⟩
    ∧ (⟨9, none, 77, 107, 1060, 108, 1080⟩ : Message).precondition_validation_data = none :=
  ⟨rfl, (C8_request_fault_proof_spec (fun k => some (10 * k)) ⟨1, 2, 0, 0, 0⟩
    (fun k => some (k + 1)) 9 100 3 77 ⟨9, none, 77, 107, 1060, 108, 1080⟩ rfl).1⟩

/-! ## FPVM guest entry point (`build/risczero/fpvm/src/main.rs`)

The guest deserializes the witness, runs the stitched stateless client to
obtain a proof journal, asserts that the claimed L2 output root is nonzero
("Cannot prove proposal prematurity."), and only then commits the packed
journal.  An assertion failure aborts the guest without committing, which is
modelled by returning `none`; a successful run commits the journal.  The
`ProofJournal` record is modelled from the spec (its source file is not among
the embedded sources): payout recipient, precondition hash, L1 head,
agreed/claimed L2 output roots, claimed L2 block number, config hash, FPVM
image id; the all-zero 32-byte hash is modelled by the identifier 0.  The
stitched stateless client enters as an abstract function from witnesses to
journals. -/

structure ProofJournal where
  payout_recipient : Nat
  precondition_hash : Nat
  l1_head : Nat
  agreed_l2_output_root : Nat
  claimed_l2_output_root : Nat
  claimed_l2_block_number : Nat
  config_hash : Nat
  fpvm_image_id : Nat

def run_fpvm_guest {W : Type} (run_stateless_client : W → ProofJournal) (witness : W) :
    Option ProofJournal :=
  let proof_journal := run_stateless_client witness
  if proof_journal.claimed_l2_output_root = 0 then none
  else some proof_journal

/-- C10: every journal the FPVM guest commits has a nonzero claimed L2 output
root, and whenever the stitched stateless client produces a journal whose
claimed L2 output root is the all-zero hash, the guest aborts via the
assertion instead of committing any journal. -/
theorem C10_no_premature_commit {W : Type} (run_stateless_client : W → ProofJournal)
    (witness : W) :
    (∀ journal : ProofJournal, run_fpvm_guest run_stateless_client witness = some journal →
      journal.claimed_l2_output_root ≠ 0 ∧ journal = run_stateless_client witness)
    ∧ ((run_stateless_client witness).claimed_l2_output_root = 0 →
      run_fpvm_guest run_stateless_client witness = none) := by
  constructor
  · intro journal hj
    by_cases hz : (run_stateless_client witness).claimed_l2_output_root = 0
    · rw [show run_fpvm_guest run_stateless_client witness = none by
        show (if (run_stateless_client witness).claimed_l2_output_root = 0 then none
          else some (run_stateless_client witness)) = none
        rw [if_pos hz]] at hj
      exact Option.noConfusion hj
    · rw [show run_fpvm_guest run_stateless_client witness =
          some (run_stateless_client witness) by
        show (if (run_stateless_client witness).claimed_l2_output_root = 0 then none
          else some (run_stateless_client witness)) = some _
        rw [if_neg hz]] at hj
      have := (Option.some.injEq _ _).mp hj
      subst this
      exact ⟨hz, rfl⟩
  · intro hz
    show (if (run_stateless_client witness).claimed_l2_output_root = 0 then none
      else some (run_stateless_client witness)) = none
    rw [if_pos hz]

theorem C10_witness :
    run_fpvm_guest (fun _ : Unit => (⟨1, 2, 3, 4, 5, 6, 7, 8⟩ : ProofJournal)) () =
      some ⟨1, 2, 3, 4, 5, 6, 7, 8⟩
    ∧ (⟨1, 2, 3, 4, 5, 6, 7, 8⟩ : ProofJournal).claimed_l2_output_root ≠ 0
    ∧ run_fpvm_guest (fun _ : Unit => (⟨1, 2, 3, 4, 0, 6, 7, 8⟩ : ProofJournal)) () = none :=
  ⟨rfl,
    ((C10_no_premature_commit (fun _ : Unit => (⟨1, 2, 3, 4, 5, 6, 7, 8⟩ : ProofJournal))
      ()).1 ⟨1, 2, 3, 4, 5, 6, 7, 8⟩ rfl).1,
    (C10_no_premature_commit (fun _ : Unit => (⟨1, 2, 3, 4, 0, 6, 7, 8⟩ : ProofJournal))
      ()).2 rfl⟩

/-! ## KZG opening wrapper (`bin/cli/src/provider.rs`, `blob_fe_proof`)

`blob_fe_proof(blob, index)` converts the blob, computes the opening
`(proof, value)` of the blob polynomial at `z = root_of_unity(index)`, computes
the blob's KZG commitment, and verifies the opening against the commitment
before returning; when the verification call reports failure it bails with a
proof-construction error instead of returning the opening.  The KZG library
primitives are abstract parameters (the spec treats KZG itself as a trusted
external library); the evaluation point is the numeric value whose 32-byte
big-endian encoding the code passes to the library. -/

inductive KzgError where
  | libraryFailure
  | proofConstruction

theorem except_bind_ok {ε α β : Type} (a : α) (f : α → Except ε β) :
    (Except.ok a : Except ε α).bind f = f a := rfl

theorem except_bind_error {ε α β : Type} (e : ε) (f : α → Except ε β) :
    (Except.error e : Except ε α).bind f = .error e := rfl

def blob_fe_proof {Blob CKzgBlob Commitment ProofBytes ValueBytes : Type}
    (blob_from_bytes : Blob → Except KzgError CKzgBlob)
    (compute_kzg_proof : CKzgBlob → Nat → Except KzgError (ProofBytes × ValueBytes))
    (blob_to_kzg_commitment : CKzgBlob → Except KzgError Commitment)
    (verify_kzg_proof : Commitment → Nat → ValueBytes → ProofBytes → Except KzgError Bool)
    (blob : Blob) (index : Nat) : Except KzgError (ProofBytes × ValueBytes) :=
  let z := root_of_unity index
  (blob_from_bytes blob).bind (fun c_kzg_blob =>
    (compute_kzg_proof c_kzg_blob z).bind (fun pv =>
      (blob_to_kzg_commitment c_kzg_blob).bind (fun commitment =>
        (verify_kzg_proof commitment z pv.2 pv.1).bind (fun verified =>
          if verified then .ok pv else .error .proofConstruction))))

/-- C2: `blob_fe_proof(blob, index)` returns an opening `(proof, value)` only
if the self-verification of that opening against the blob's KZG commitment at
the evaluation point `root_of_unity(index)` succeeded, and it returns the
proof-construction error whenever the self-verification reports failure; it
never returns an opening that does not verify against the blob's commitment. -/
theorem C2_blob_fe_proof_self_verifies {Blob CKzgBlob Commitment ProofBytes ValueBytes : Type}
    (blob_from_bytes : Blob → Except KzgError CKzgBlob)
    (compute_kzg_proof : CKzgBlob → Nat → Except KzgError (ProofBytes × ValueBytes))
    (blob_to_kzg_commitment : CKzgBlob → Except KzgError Commitment)
    (verify_kzg_proof : Commitment → Nat → ValueBytes → ProofBytes → Except KzgError Bool)
    (blob : Blob) (index : Nat) :
    (∀ pv : ProofBytes × ValueBytes,
      blob_fe_proof blob_from_bytes compute_kzg_proof blob_to_kzg_commitment
        verify_kzg_proof blob index = .ok pv →
      ∃ (c_kzg_blob : CKzgBlob) (commitment : Commitment),
        blob_from_bytes blob = .ok c_kzg_blob
        ∧ blob_to_kzg_commitment c_kzg_blob = .ok commitment
        ∧ verify_kzg_proof commitment (root_of_unity index) pv.2 pv.1 = .ok true)
    ∧ (∀ (c_kzg_blob : CKzgBlob) (commitment : Commitment) (pv : ProofBytes × ValueBytes),
      blob_from_bytes blob = .ok c_kzg_blob →
      compute_kzg_proof c_kzg_blob (root_of_unity index) = .ok pv →
      blob_to_kzg_commitment c_kzg_blob = .ok commitment →
      verify_kzg_proof commitment (root_of_unity index) pv.2 pv.1 = .ok false →
      blob_fe_proof blob_from_bytes compute_kzg_proof blob_to_kzg_commitment
        verify_kzg_proof blob index = .error .proofConstruction) := by
  constructor
  · intro pv h
    simp only [blob_fe_proof] at h
    cases hfb : blob_from_bytes blob with
    | error e => rw [hfb, except_bind_error] at h; exact Except.noConfusion h
    | ok cb =>
      rw [hfb, except_bind_ok] at h
      cases hcp : compute_kzg_proof cb (root_of_unity index) with
      | error e => rw [hcp, except_bind_error] at h; exact Except.noConfusion h
      | ok pv2 =>
        rw [hcp, except_bind_ok] at h
        cases hbc : blob_to_kzg_commitment cb with
        | error e => rw [hbc, except_bind_error] at h; exact Except.noConfusion h
        | ok cmt =>
          rw [hbc, except_bind_ok] at h
          cases hvp : verify_kzg_proof cmt (root_of_unity index) pv2.2 pv2.1 with
          | error e => rw [hvp, except_bind_error] at h; exact Except.noConfusion h
          | ok b =>
            rw [hvp, except_bind_ok] at h
            cases b with
            | true =>
              rw [if_pos rfl] at h
              have hpv := (Except.ok.injEq _ _).mp h
              subst hpv
              exact ⟨cb, cmt, rfl, hbc, hvp⟩
            | false =>
              rw [if_neg (by exact Bool.false_ne_true)] at h
              exact Except.noConfusion h
  · intro cb cmt pv hfb hcp hbc hvp
    simp only [blob_fe_proof]
    rw [hfb, except_bind_ok, hcp, except_bind_ok, hbc, except_bind_ok, hvp, except_bind_ok,
      if_neg (by exact Bool.false_ne_true)]

theorem C2_witness :
    (∃ (c_kzg_blob commitment : Nat),
      (Except.ok 0 : Except KzgError Nat) = .ok c_kzg_blob
      ∧ (Except.ok 0 : Except KzgError Nat) = .ok commitment
      ∧ (Except.ok true : Except KzgError Bool) = .ok true)
    ∧ blob_fe_proof (fun b : Nat => (.ok b : Except KzgError Nat))
        (fun _ _ => (.ok ((1 : Nat), (2 : Nat)) : Except KzgError (Nat × Nat)))
        (fun _ => (.ok (0 : Nat) : Except KzgError Nat))
        (fun _ _ _ _ => (.ok false : Except KzgError Bool)) 0 5 =
      .error .proofConstruction :=
  ⟨(C2_blob_fe_proof_self_verifies (fun b : Nat => (.ok b : Except KzgError Nat))
      (fun _ _ => (.ok ((1 : Nat), (2 : Nat)) : Except KzgError (Nat × Nat)))
      (fun _ => (.ok (0 : Nat) : Except KzgError Nat))
      (fun _ _ _ _ => (.ok true : Except KzgError Bool)) 0 5).1 (1, 2) rfl,
    (C2_blob_fe_proof_self_verifies (fun b : Nat => (.ok b : Except KzgError Nat))
      (fun _ _ => (.ok ((1 : Nat), (2 : Nat)) : Except KzgError (Nat × Nat)))
      (fun _ => (.ok (0 : Nat) : Except KzgError Nat))
      (fun _ _ _ _ => (.ok false : Except KzgError Bool)) 0 5).2 0 0 (1, 2) rfl rfl rfl rfl⟩

theorem C6_witness :
    (256 : Nat) < 2 ^ 64 ∧ (2 : Nat) < 2 ^ 64 ∧ (0 : Nat) < 2 ^ 64
    ∧ ((extra_data 256 2 0).length = 24
      ∧ fromBEBytes (extra_data 256 2 0) = (256 * 2 ^ 64 + 2) * 2 ^ 64 + 0) :=
  ⟨by decide, by decide, by decide,
    C6_extra_data_layout.1 256 2 0 (by decide) (by decide) (by decide)⟩

end Kailua
